import Mathlib

/-!
Shallow embedding of the boolean-retrieval engine (indexer.cpp / searching.cpp).
C++ `std::string` values are modelled as byte lists (`List Nat`, each entry one
byte); multi-byte UTF-8 text is therefore representable verbatim.  Stack tops,
stream states and file contents are made explicit.  Loops that the C++ source
runs on an `ifstream` are written with an explicit fuel argument so that every
definition is structurally recursive (kernel-reducible); the fuel passed by the
wrappers (`length + 1`) always suffices because every loop iteration consumes
at least eight bytes of input.
-/

namespace InfoSearch

/-- ASCII helper: the byte list of a Lean string literal (used only for ASCII
literals, where `Char.toNat` coincides with the single UTF-8 byte). -/
def bytes (s : String) : List Nat := s.data.map Char.toNat

/-! ## indexer.cpp: tokenization (`to_lower`, `parse_tokens`) -/

/-- indexer.cpp `to_lower`: `std::transform` with `::tolower` over each byte
(C locale: only `A`..`Z`, bytes 65..90, are shifted by 32). -/
def to_lower (s : List Nat) : List Nat :=
  s.map fun c => if 65 ≤ c ∧ c ≤ 90 then c + 32 else c

/-- `std::isalnum` in the C locale: digits 48..57, uppercase 65..90,
lowercase 97..122. -/
def is_alnum (c : Nat) : Prop := (48 ≤ c ∧ c ≤ 57) ∨ (65 ≤ c ∧ c ≤ 90) ∨ (97 ≤ c ∧ c ≤ 122)

instance (c : Nat) : Decidable (is_alnum c) := by unfold is_alnum; infer_instance

/-- indexer.cpp `parse_tokens` loop body: accumulate alphanumeric runs into
`token`, emitting `to_lower token` at each non-alphanumeric byte. -/
def parse_tokens_loop (token : List Nat) : List Nat → List (List Nat)
  | [] => if token = [] then [] else [to_lower token]
  | c :: cs =>
    if is_alnum c then parse_tokens_loop (token ++ [c]) cs
    else if token = [] then parse_tokens_loop [] cs
    else to_lower token :: parse_tokens_loop [] cs

/-- indexer.cpp `parse_tokens` (the trailing nonempty token is flushed after
the loop). -/
def parse_tokens (text : List Nat) : List (List Nat) := parse_tokens_loop [] text

/-! ## Data model (both translation units declare the same two structs) -/

/-- One record of the Direct Index (struct `DirectIndex`). -/
structure DirectIndex where
  doc_id : List Nat
  title : List Nat
  url : List Nat
deriving DecidableEq, Repr

/-- One record of the Inverted Index (struct `InvertedIndex`). -/
structure InvertedIndex where
  term : List Nat
  doc_ids : List (List Nat)
deriving DecidableEq, Repr

/-! ## Binary codec: 8-byte little-endian unsigned length prefixes -/

/-- Little-endian 8-byte encoding of a `uint64_t` value. -/
def encU64 (n : Nat) : List Nat := (List.range 8).map fun i => n / 256 ^ i % 256

/-- Little-endian decoding of (exactly) the given bytes into a `uint64_t`
value; the loaders always apply it to an 8-byte slice. -/
def decU64 : List Nat → Nat
  | [] => 0
  | b :: rest => b + 256 * decU64 rest

/-! ## indexer.cpp: writers -/

/-- indexer.cpp `write_direct_index`, successful-open path: for each record it
writes `title_size ++ title ++ url_size ++ url` and nothing else (the source
never writes `doc_id`). -/
def write_direct_index (direct_index : List DirectIndex) : List Nat :=
  (direct_index.map fun doc =>
    encU64 doc.title.length ++ doc.title ++ encU64 doc.url.length ++ doc.url).flatten

/-- indexer.cpp `write_inverted_index`, successful-open path: per record,
`term_size ++ term ++ doc_count` followed by each length-prefixed doc id. -/
def write_inverted_index (inverted_index : List InvertedIndex) : List Nat :=
  (inverted_index.map fun t =>
    encU64 t.term.length ++ t.term ++ encU64 t.doc_ids.length ++
      (t.doc_ids.map fun doc_id => encU64 doc_id.length ++ doc_id).flatten).flatten

/-- indexer.cpp `write_direct_index` including the open-failure branch: when
the output file cannot be opened the function prints a message and returns,
persisting nothing (`none`); it does not abort the process. -/
def write_direct_file (can_open : Bool) (direct_index : List DirectIndex) : Option (List Nat) :=
  if can_open then some (write_direct_index direct_index) else none

/-- indexer.cpp `write_inverted_index` including the open-failure branch
(print a message, persist nothing, return). -/
def write_inverted_file (can_open : Bool) (inverted_index : List InvertedIndex) :
    Option (List Nat) :=
  if can_open then some (write_inverted_index inverted_index) else none

/-! ## indexer.cpp: main (index build) -/

/-- One parsed line of `corpus.jsonl` (fields `doc_id`, `title`,
`normalized_url`, `clean_text`); JSON parsing itself is external to the core
and a line that fails to parse is skipped before this point. -/
structure CorpusDoc where
  doc_id : List Nat
  title : List Nat
  url : List Nat
  clean_text : List Nat
deriving DecidableEq, Repr

/-- The token loop body of indexer.cpp `main`: linear scan over the inverted
index; the first entry whose `term` equals the token gets `doc_id` appended
unconditionally; otherwise a fresh entry `{token, {doc_id}}` is appended.
There is no sorting and no deduplication anywhere afterwards. -/
def add_token (inverted_index : List InvertedIndex) (doc_id token : List Nat) :
    List InvertedIndex :=
  match inverted_index with
  | [] => [⟨token, [doc_id]⟩]
  | entry :: rest =>
    if entry.term = token then ⟨entry.term, entry.doc_ids ++ [doc_id]⟩ :: rest
    else entry :: add_token rest doc_id token

/-- indexer.cpp `main`, per-document indexing: every token of the document is
fed through `add_token` in occurrence order. -/
def index_doc (inverted_index : List InvertedIndex) (doc : CorpusDoc) : List InvertedIndex :=
  (parse_tokens doc.clean_text).foldl (fun acc t => add_token acc doc.doc_id t) inverted_index

/-- indexer.cpp `main`, inverted-index accumulation over the whole corpus.
The build ends here: the source contains no canonicalization pass. -/
def build_inverted (corpus : List CorpusDoc) : List InvertedIndex :=
  corpus.foldl index_doc []

/-- indexer.cpp `main` observable behaviour: exit status and the two persisted
files.  A missing/unreadable corpus returns 1 before building; otherwise the
direct index is the corpus metadata in order, the inverted index is the
accumulated postings, both writers are called (each may silently fail to open),
statistics are written to a log sink that cannot affect the result, and main
returns 0 unconditionally.  The duplicate-doc_id check only prints a warning
and is observationally irrelevant here. -/
def indexer_main (corpus_readable : Bool) (corpus : List CorpusDoc)
    (direct_writable inverted_writable : Bool) :
    Nat × Option (List Nat) × Option (List Nat) :=
  if corpus_readable = false then (1, none, none)
  else
    (0,
     write_direct_file direct_writable (corpus.map fun d => ⟨d.doc_id, d.title, d.url⟩),
     write_inverted_file inverted_writable (build_inverted corpus))

/-! ## searching.cpp: loaders

The C++ loaders run `while (infile)` over a binary `ifstream`.  Stream
semantics modelled: `read(p, n)` succeeds iff at least `n` bytes remain
(reading exactly to the end does not set `eofbit`); a failed read sets the
fail state, leaves a partially filled buffer (`resize` pads with zero bytes,
the read copies what was available) and makes every later read a no-op.  A
`uint64_t` local whose read failed keeps its indeterminate (uninitialized)
value: that value is the explicit `junk` parameter below; no theorem in this
file depends on a path where `junk` reaches the result except where the
statement quantifies over `junk`.  The fuel argument only bounds the loop
structurally: each iteration consumes at least 8 bytes, so the wrapper fuel
`length + 1` is never exhausted. -/

/-- searching.cpp `load_direct_index` loop.  Per iteration: read `title_size`
(on end-of-file during this read: `break`, discarding the partial prefix
silently), then `title`, `url_size`, `url`, `doc_id_size`, `doc_id`, and push
the record even when a read after the first failed (the `while (infile)`
condition only stops the next iteration). -/
def load_direct_loop (junk : Nat) : Nat → List Nat → List DirectIndex
  | 0, _ => []
  | fuel + 1, bs =>
    if bs.length < 8 then []
    else
      let title_size := decU64 (bs.take 8)
      let r1 := bs.drop 8
      if title_size ≤ r1.length then
        let title := r1.take title_size
        let r2 := r1.drop title_size
        if 8 ≤ r2.length then
          let url_size := decU64 (r2.take 8)
          let r3 := r2.drop 8
          if url_size ≤ r3.length then
            let url := r3.take url_size
            let r4 := r3.drop url_size
            if 8 ≤ r4.length then
              let doc_id_size := decU64 (r4.take 8)
              let r5 := r4.drop 8
              if doc_id_size ≤ r5.length then
                ⟨r5.take doc_id_size, title, url⟩ :: load_direct_loop junk fuel (r5.drop doc_id_size)
              else
                [⟨r5 ++ List.replicate (doc_id_size - r5.length) 0, title, url⟩]
            else
              [⟨List.replicate junk 0, title, url⟩]
          else
            [⟨List.replicate junk 0, title, r3 ++ List.replicate (url_size - r3.length) 0⟩]
        else
          [⟨List.replicate junk 0, title, List.replicate junk 0⟩]
      else
        [⟨List.replicate junk 0, r1 ++ List.replicate (title_size - r1.length) 0,
          List.replicate junk 0⟩]

/-- searching.cpp `load_direct_index` on the contents of an opened file. -/
def load_direct_index (junk : Nat) (bs : List Nat) : List DirectIndex :=
  load_direct_loop junk (bs.length + 1) bs

/-- searching.cpp `load_direct_index` including the open-failure branch: on a
missing/unreadable file it prints a message and returns, leaving the caller
vector unchanged (empty); the signature offers no error channel at all. -/
def load_direct_file (junk : Nat) : Option (List Nat) → List DirectIndex
  | none => []
  | some bs => load_direct_index junk bs

/-- The inner doc-id loop of searching.cpp `load_inverted_index`: read `count`
length-prefixed strings into a vector pre-`resize`d to `count` empty strings.
Returns the strings read, the remaining bytes and whether the stream is still
good.  After the first failed read the later slots keep being `resize`d to the
indeterminate `doc_id_size` (zero-filled), since the resize is unguarded while
the reads are no-ops. -/
def read_doc_ids (junk : Nat) : Nat → List Nat → List (List Nat) × List Nat × Bool
  | 0, bs => ([], bs, true)
  | n + 1, bs =>
    if 8 ≤ bs.length then
      let sz := decU64 (bs.take 8)
      let r := bs.drop 8
      if sz ≤ r.length then
        let rec_rest := read_doc_ids junk n (r.drop sz)
        (r.take sz :: rec_rest.1, rec_rest.2.1, rec_rest.2.2)
      else
        ((r ++ List.replicate (sz - r.length) 0) :: List.replicate n (List.replicate junk 0),
         [], false)
    else
      (List.replicate (n + 1) (List.replicate junk 0), [], false)

/-- searching.cpp `load_inverted_index` loop: read `term_size` (end-of-file
here: silent `break`), `term`, `doc_count`, then the doc-id loop; the record is
pushed even when a read failed, and only then does `while (infile)` stop. -/
def load_inverted_loop (junk : Nat) : Nat → List Nat → List InvertedIndex
  | 0, _ => []
  | fuel + 1, bs =>
    if bs.length < 8 then []
    else
      let term_size := decU64 (bs.take 8)
      let r1 := bs.drop 8
      if term_size ≤ r1.length then
        let term := r1.take term_size
        let r2 := r1.drop term_size
        if 8 ≤ r2.length then
          let doc_count := decU64 (r2.take 8)
          let res := read_doc_ids junk doc_count (r2.drop 8)
          if res.2.2 then ⟨term, res.1⟩ :: load_inverted_loop junk fuel res.2.1
          else [⟨term, res.1⟩]
        else
          [⟨term, List.replicate junk (List.replicate junk 0)⟩]
      else
        [⟨r1 ++ List.replicate (term_size - r1.length) 0,
          List.replicate junk (List.replicate junk 0)⟩]

/-- searching.cpp `load_inverted_index` on the contents of an opened file. -/
def load_inverted_index (junk : Nat) (bs : List Nat) : List InvertedIndex :=
  load_inverted_loop junk (bs.length + 1) bs

/-- searching.cpp `load_inverted_index` including the open-failure branch
(message printed, vector left empty, no error value). -/
def load_inverted_file (junk : Nat) : Option (List Nat) → List InvertedIndex
  | none => []
  | some bs => load_inverted_index junk bs

/-! ## searching.cpp: query lexer (`parse_query`)

Byte values used by the lexer: `"` = 34, space = 32, `(` = 40, `)` = 41,
`&` = 38, `|` = 124, `!` = 33. -/

/-- searching.cpp `parse_query` loop.  A `"` byte only toggles `in_quotes`.
Space and parentheses flush the pending token, but only outside quotes.  An
`&`, `|` or `!` byte (the branch does not consult `in_quotes`) flushes the
pending token, then emits the doubled two-byte operator if the next byte is
the same (consuming it) and otherwise the single byte as its own token.  Any
other byte is appended to the pending token, which is flushed at the end. -/
def parse_query_loop (in_quotes : Bool) (token : List Nat) : List Nat → List (List Nat)
  | [] => if token = [] then [] else [token]
  | c :: cs =>
    if c = 34 then parse_query_loop (!in_quotes) token cs
    else if (c = 32 ∨ c = 40 ∨ c = 41) ∧ in_quotes = false then
      (if token = [] then [] else [token]) ++ parse_query_loop in_quotes [] cs
    else if c = 38 ∨ c = 124 ∨ c = 33 then
      (if token = [] then [] else [token]) ++
        match cs with
        | c2 :: cs2 =>
          if c2 = c then [c, c] :: parse_query_loop in_quotes [] cs2
          else [c] :: parse_query_loop in_quotes [] (c2 :: cs2)
        | [] => [[c]]
    else parse_query_loop in_quotes (token ++ [c]) cs

/-- searching.cpp `parse_query`. -/
def parse_query (query : List Nat) : List (List Nat) := parse_query_loop false [] query

/-! ## searching.cpp: set operations

`std::set_intersection` / `set_union` / `set_difference` are generic over the
element order, exactly as modelled here with a `LinearOrder`; searching.cpp
instantiates them at `std::string` with its lexicographic byte order, modelled
as `List Nat` with the lexicographic order.  The standard algorithms are the
usual two-pointer merges below; the fuel (sum of the two lengths, supplied by
the wrappers) only makes the recursion structural and is never exhausted. -/

variable {α : Type} [LinearOrder α]

/-- `std::set_intersection` merge loop. -/
def inter_loop : Nat → List α → List α → List α
  | 0, _, _ => []
  | _, [], _ => []
  | _, _, [] => []
  | fuel + 1, a :: as, b :: bs =>
    if a < b then inter_loop fuel as (b :: bs)
    else if b < a then inter_loop fuel (a :: as) bs
    else a :: inter_loop fuel as bs

/-- `std::set_intersection` on whole lists. -/
def set_intersection (l r : List α) : List α := inter_loop (l.length + r.length) l r

/-- `std::set_union` merge loop: when the heads are equivalent the left copy
is emitted and both are advanced. -/
def union_loop : Nat → List α → List α → List α
  | 0, _, _ => []
  | _, [], r => r
  | _, l, [] => l
  | fuel + 1, a :: as, b :: bs =>
    if b < a then b :: union_loop fuel (a :: as) bs
    else if a < b then a :: union_loop fuel as (b :: bs)
    else a :: union_loop fuel as bs

/-- `std::set_union` on whole lists. -/
def set_union (l r : List α) : List α := union_loop (l.length + r.length) l r

/-- `std::set_difference` merge loop: the remainder of the first range is
copied once the second is exhausted. -/
def diff_loop : Nat → List α → List α → List α
  | 0, _, _ => []
  | _, [], _ => []
  | _, l, [] => l
  | fuel + 1, a :: as, b :: bs =>
    if a < b then a :: diff_loop fuel as (b :: bs)
    else if b < a then diff_loop fuel (a :: as) bs
    else diff_loop fuel as bs

/-- `std::set_difference` on whole lists. -/
def set_difference (l r : List α) : List α := diff_loop (l.length + r.length) l r

/-- searching.cpp `and_operation`: guard returning empty when either side is
empty, then `std::set_intersection`. -/
def and_operation (left right : List α) : List α :=
  if left.isEmpty || right.isEmpty then [] else set_intersection left right

/-- searching.cpp `or_operation`: the same guard (returning empty when either
side is empty, so the other operand is discarded), then `std::set_union`. -/
def or_operation (left right : List α) : List α :=
  if left.isEmpty || right.isEmpty then [] else set_union left right

/-- searching.cpp `not_operation`: guard on the left operand only, then
`std::set_difference`. -/
def not_operation (left right : List α) : List α :=
  if left.isEmpty then [] else set_difference left right

/-! ## searching.cpp: evaluator (`boolean_search`) and result resolver -/

/-- The token `&&` = bytes 38, 38. -/
def opAndTok : List Nat := [38, 38]

/-- The token `||` = bytes 124, 124. -/
def opOrTok : List Nat := [124, 124]

/-- The token `!` = byte 33. -/
def opNotTok : List Nat := [33]

/-- The operand lookup inside `boolean_search`: first entry of the inverted
index whose `term` equals the token. -/
def lookup_term : List InvertedIndex → List Nat → Option (List (List Nat))
  | [], _ => none
  | entry :: rest, tok =>
    if entry.term = tok then some entry.doc_ids else lookup_term rest tok

/-- One iteration of the `boolean_search` token loop.  The stack is a list
with its head as the `std::vector` back (top).  An operator with fewer than
two stack items is skipped (`continue`); otherwise `right` then `left` are
popped and the operation result pushed.  An operand pushes its postings list
when found and nothing otherwise. -/
def eval_token (inverted_index : List InvertedIndex)
    (stack : List (List (List Nat))) (token : List Nat) : List (List (List Nat)) :=
  if token = opAndTok ∨ token = opOrTok ∨ token = opNotTok then
    match stack with
    | right :: left :: rest =>
      (if token = opAndTok then and_operation left right
       else if token = opOrTok then or_operation left right
       else not_operation left right) :: rest
    | _ => stack
  else
    match lookup_term inverted_index token with
    | some doc_ids => doc_ids :: stack
    | none => stack

/-- searching.cpp `boolean_search`: fold the token loop over the parsed query
starting from the empty stack; the result is the stack top, or the empty list
when the stack is empty. -/
def boolean_search (query : List Nat) (inverted_index : List InvertedIndex) :
    List (List Nat) :=
  match (parse_query query).foldl (eval_token inverted_index) [] with
  | [] => []
  | top :: _ => top

/-- The per-result lookup in searching.cpp `main`: `std::find_if` over the
direct index by `doc_id`. -/
def find_doc : List DirectIndex → List Nat → Option DirectIndex
  | [], _ => none
  | doc :: rest, id => if doc.doc_id = id then some doc else find_doc rest id

/-- The output of one query in searching.cpp `main`: each winning doc id that
resolves in the direct index yields one printed record, in postings order;
unresolved ids are skipped. -/
def resolve_result (direct_index : List DirectIndex) (result : List (List Nat)) :
    List DirectIndex :=
  result.filterMap (find_doc direct_index)

/-- searching.cpp `main` observable behaviour: exit status and the resolved
result of every nonempty query line.  A missing query-file argument or an
unopenable query file exits 1; otherwise both indices are loaded (whatever
that yields, with no error check) and every nonempty line is answered, with
exit status 0. -/
def searcher_main (junk : Nat) (query_file : Option (List (List Nat)))
    (direct_bytes inverted_bytes : Option (List Nat)) : Nat × List (List DirectIndex) :=
  match query_file with
  | none => (1, [])
  | some queries =>
    (0,
     (queries.filter fun q => !q.isEmpty).map fun q =>
       resolve_result (load_direct_file junk direct_bytes)
         (boolean_search q (load_inverted_file junk inverted_bytes)))

/-! ## Concrete fixtures used by several claims -/

/-- The inverted index of the end-to-end scenarios:
cat maps to d1, dog to d1 and d2, bird to d2. -/
def exampleIndex : List InvertedIndex :=
  [⟨bytes "cat", [bytes "d1"]⟩,
   ⟨bytes "dog", [bytes "d1", bytes "d2"]⟩,
   ⟨bytes "bird", [bytes "d2"]⟩]

/-! ## Lemmas about the merge loops -/

theorem inter_loop_sublist : ∀ (fuel : Nat) (l r : List α), List.Sublist (inter_loop fuel l r) l := by
  intro fuel
  induction fuel with
  | zero => intro l r; simp [inter_loop]
  | succ f ih =>
    intro l r
    match l, r with
    | [], _ => simp [inter_loop]
    | _ :: _, [] => simp [inter_loop]
    | a :: as, b :: bs =>
      simp only [inter_loop]
      split_ifs with h1 h2
      · exact List.Sublist.cons a (ih as (b :: bs))
      · exact ih (a :: as) bs
      · exact List.Sublist.cons₂ a (ih as bs)

theorem diff_loop_sublist : ∀ (fuel : Nat) (l r : List α), List.Sublist (diff_loop fuel l r) l := by
  intro fuel
  induction fuel with
  | zero => intro l r; simp [diff_loop]
  | succ f ih =>
    intro l r
    match l, r with
    | [], _ => simp [diff_loop]
    | a :: as, [] => simp [diff_loop]
    | a :: as, b :: bs =>
      simp only [diff_loop]
      split_ifs with h1 h2
      · exact List.Sublist.cons₂ a (ih as (b :: bs))
      · exact ih (a :: as) bs
      · exact List.Sublist.cons a (ih as bs)

theorem mem_inter_loop : ∀ (fuel : Nat) (l r : List α), l.length + r.length ≤ fuel →
    l.Sorted (· < ·) → r.Sorted (· < ·) →
    ∀ x : α, x ∈ inter_loop fuel l r ↔ x ∈ l ∧ x ∈ r := by
  intro fuel
  induction fuel with
  | zero =>
    intro l r hlen _ _ x
    have hl : l = [] := List.length_eq_zero.mp (by omega)
    have hr : r = [] := List.length_eq_zero.mp (by omega)
    subst hl; subst hr; simp [inter_loop]
  | succ f ih =>
    intro l r hlen hl hr x
    match l, r with
    | [], _ => simp [inter_loop]
    | _ :: _, [] => simp [inter_loop]
    | a :: as, b :: bs =>
      simp only [List.length_cons] at hlen
      rw [List.sorted_cons] at hl hr
      simp only [inter_loop]
      split_ifs with h1 h2
      · rw [ih as (b :: bs) (by simp only [List.length_cons]; omega) hl.2 (List.sorted_cons.mpr hr)]
        constructor
        · rintro ⟨hxa, hxb⟩; exact ⟨List.mem_cons_of_mem a hxa, hxb⟩
        · rintro ⟨hxa, hxb⟩
          rcases List.mem_cons.mp hxa with rfl | hxa'
          · exfalso
            rcases List.mem_cons.mp hxb with rfl | hxb'
            · exact absurd h1 (lt_irrefl x)
            · exact absurd (h1.trans (hr.1 x hxb')) (lt_irrefl x)
          · exact ⟨hxa', hxb⟩
      · rw [ih (a :: as) bs (by simp only [List.length_cons]; omega) (List.sorted_cons.mpr hl) hr.2]
        constructor
        · rintro ⟨hxa, hxb⟩; exact ⟨hxa, List.mem_cons_of_mem b hxb⟩
        · rintro ⟨hxa, hxb⟩
          refine ⟨hxa, ?_⟩
          rcases List.mem_cons.mp hxb with rfl | hxb'
          · exfalso
            rcases List.mem_cons.mp hxa with rfl | hxa'
            · exact absurd h2 (lt_irrefl x)
            · exact absurd (h2.trans (hl.1 x hxa')) (lt_irrefl x)
          · exact hxb'
      · have hab : a = b := le_antisymm (not_lt.mp h2) (not_lt.mp h1)
        subst hab
        rw [List.mem_cons, ih as bs (by omega) hl.2 hr.2]
        constructor
        · rintro (rfl | ⟨hxa, hxb⟩)
          · exact ⟨List.mem_cons_self x as, List.mem_cons_self x bs⟩
          · exact ⟨List.mem_cons_of_mem a hxa, List.mem_cons_of_mem a hxb⟩
        · rintro ⟨hxa, hxb⟩
          rcases List.mem_cons.mp hxa with rfl | hxa'
          · exact Or.inl rfl
          · refine Or.inr ⟨hxa', ?_⟩
            rcases List.mem_cons.mp hxb with rfl | hxb'
            · exact absurd (hl.1 x hxa') (lt_irrefl x)
            · exact hxb'

theorem mem_union_loop : ∀ (fuel : Nat) (l r : List α), l.length + r.length ≤ fuel →
    ∀ x : α, x ∈ union_loop fuel l r ↔ x ∈ l ∨ x ∈ r := by
  intro fuel
  induction fuel with
  | zero =>
    intro l r hlen x
    have hl : l = [] := List.length_eq_zero.mp (by omega)
    have hr : r = [] := List.length_eq_zero.mp (by omega)
    subst hl; subst hr; simp [union_loop]
  | succ f ih =>
    intro l r hlen x
    match l, r with
    | [], _ => simp [union_loop]
    | _ :: _, [] => simp [union_loop]
    | a :: as, b :: bs =>
      simp only [List.length_cons] at hlen
      simp only [union_loop]
      split_ifs with h1 h2
      · simp only [List.mem_cons, ih (a :: as) bs (by simp only [List.length_cons]; omega) x, List.mem_cons]
        tauto
      · simp only [List.mem_cons, ih as (b :: bs) (by simp only [List.length_cons]; omega) x, List.mem_cons]
        tauto
      · have hab : a = b := le_antisymm (not_lt.mp h1) (not_lt.mp h2)
        subst hab
        simp only [List.mem_cons, ih as bs (by omega) x]
        tauto

theorem sorted_union_loop : ∀ (fuel : Nat) (l r : List α), l.length + r.length ≤ fuel →
    l.Sorted (· < ·) → r.Sorted (· < ·) → (union_loop fuel l r).Sorted (· < ·) := by
  intro fuel
  induction fuel with
  | zero => intro l r _ _ _; simp [union_loop]
  | succ f ih =>
    intro l r hlen hl hr
    match l, r with
    | [], _ => simpa [union_loop] using hr
    | _ :: _, [] => simpa [union_loop] using hl
    | a :: as, b :: bs =>
      simp only [List.length_cons] at hlen
      rw [List.sorted_cons] at hl hr
      simp only [union_loop]
      split_ifs with h1 h2
      · rw [List.sorted_cons]
        refine ⟨?_, ih (a :: as) bs (by simp only [List.length_cons]; omega) (List.sorted_cons.mpr hl) hr.2⟩
        intro x hx
        rw [mem_union_loop f (a :: as) bs (by simp only [List.length_cons]; omega) x] at hx
        rcases hx with hx | hx
        · rcases List.mem_cons.mp hx with rfl | hx'
          · exact h1
          · exact h1.trans (hl.1 x hx')
        · exact hr.1 x hx
      · rw [List.sorted_cons]
        refine ⟨?_, ih as (b :: bs) (by simp only [List.length_cons]; omega) hl.2 (List.sorted_cons.mpr hr)⟩
        intro x hx
        rw [mem_union_loop f as (b :: bs) (by simp only [List.length_cons]; omega) x] at hx
        rcases hx with hx | hx
        · exact hl.1 x hx
        · rcases List.mem_cons.mp hx with rfl | hx'
          · exact h2
          · exact h2.trans (hr.1 x hx')
      · have hab : a = b := le_antisymm (not_lt.mp h1) (not_lt.mp h2)
        subst hab
        rw [List.sorted_cons]
        refine ⟨?_, ih as bs (by omega) hl.2 hr.2⟩
        intro x hx
        rw [mem_union_loop f as bs (by omega) x] at hx
        rcases hx with hx | hx
        · exact hl.1 x hx
        · exact hr.1 x hx

theorem mem_diff_loop : ∀ (fuel : Nat) (l r : List α), l.length + r.length ≤ fuel →
    l.Sorted (· < ·) → r.Sorted (· < ·) →
    ∀ x : α, x ∈ diff_loop fuel l r ↔ x ∈ l ∧ x ∉ r := by
  intro fuel
  induction fuel with
  | zero =>
    intro l r hlen _ _ x
    have hl : l = [] := List.length_eq_zero.mp (by omega)
    have hr : r = [] := List.length_eq_zero.mp (by omega)
    subst hl; subst hr; simp [diff_loop]
  | succ f ih =>
    intro l r hlen hl hr x
    match l, r with
    | [], _ => simp [diff_loop]
    | _ :: _, [] => simp [diff_loop]
    | a :: as, b :: bs =>
      simp only [List.length_cons] at hlen
      rw [List.sorted_cons] at hl hr
      simp only [diff_loop]
      split_ifs with h1 h2
      · rw [List.mem_cons, ih as (b :: bs) (by simp only [List.length_cons]; omega) hl.2 (List.sorted_cons.mpr hr)]
        constructor
        · rintro (rfl | ⟨hxa, hxb⟩)
          · refine ⟨List.mem_cons_self x as, ?_⟩
            intro hxb
            rcases List.mem_cons.mp hxb with rfl | hxb'
            · exact absurd h1 (lt_irrefl x)
            · exact absurd (h1.trans (hr.1 x hxb')) (lt_irrefl x)
          · exact ⟨List.mem_cons_of_mem a hxa, hxb⟩
        · rintro ⟨hxa, hxb⟩
          rcases List.mem_cons.mp hxa with rfl | hxa'
          · exact Or.inl rfl
          · exact Or.inr ⟨hxa', hxb⟩
      · rw [ih (a :: as) bs (by simp only [List.length_cons]; omega) (List.sorted_cons.mpr hl) hr.2]
        constructor
        · rintro ⟨hxa, hxb⟩
          refine ⟨hxa, ?_⟩
          intro hxb2
          rcases List.mem_cons.mp hxb2 with rfl | hxb'
          · rcases List.mem_cons.mp hxa with rfl | hxa'
            · exact absurd h2 (lt_irrefl x)
            · exact absurd (h2.trans (hl.1 x hxa')) (lt_irrefl x)
          · exact hxb hxb'
        · rintro ⟨hxa, hxb⟩
          exact ⟨hxa, fun hxb' => hxb (List.mem_cons_of_mem b hxb')⟩
      · have hab : a = b := le_antisymm (not_lt.mp h2) (not_lt.mp h1)
        subst hab
        rw [ih as bs (by omega) hl.2 hr.2]
        constructor
        · rintro ⟨hxa, hxb⟩
          refine ⟨List.mem_cons_of_mem a hxa, ?_⟩
          intro hxb2
          rcases List.mem_cons.mp hxb2 with rfl | hxb'
          · exact absurd (hl.1 x hxa) (lt_irrefl x)
          · exact hxb hxb'
        · rintro ⟨hxa, hxb⟩
          rcases List.mem_cons.mp hxa with rfl | hxa'
          · exact absurd (List.mem_cons_self x bs) hxb
          · exact ⟨hxa', fun hxb' => hxb (List.mem_cons_of_mem _ hxb')⟩

theorem inter_loop_nil_left : ∀ (fuel : Nat) (r : List α), inter_loop fuel ([] : List α) r = [] := by
  intro fuel r; cases fuel <;> cases r <;> rfl

theorem inter_loop_nil_right : ∀ (fuel : Nat) (l : List α), inter_loop fuel l ([] : List α) = [] := by
  intro fuel l; cases fuel <;> cases l <;> rfl

theorem diff_loop_nil_left : ∀ (fuel : Nat) (r : List α), diff_loop fuel ([] : List α) r = [] := by
  intro fuel r; cases fuel <;> cases r <;> rfl

/-- The empty-operand guard of `and_operation` is redundant: it agrees with
plain `std::set_intersection` on every input. -/
theorem and_operation_eq (A B : List α) : and_operation A B = set_intersection A B := by
  rw [and_operation]
  cases A with
  | nil => simp [set_intersection, inter_loop_nil_left]
  | cons a as =>
    cases B with
    | nil => simp [set_intersection, inter_loop_nil_right]
    | cons b bs => simp

/-- The empty-left guard of `not_operation` is redundant: it agrees with
plain `std::set_difference` on every input. -/
theorem not_operation_eq (A B : List α) : not_operation A B = set_difference A B := by
  rw [not_operation]
  cases A with
  | nil => simp [set_difference, diff_loop_nil_left]
  | cons a as => simp

theorem set_intersection_spec (l r : List α) (hl : l.Sorted (· < ·)) (hr : r.Sorted (· < ·)) :
    (set_intersection l r).Sorted (· < ·) ∧
      ∀ x : α, x ∈ set_intersection l r ↔ x ∈ l ∧ x ∈ r :=
  ⟨List.Pairwise.sublist (inter_loop_sublist _ l r) hl,
   mem_inter_loop _ l r (le_refl _) hl hr⟩

theorem set_union_spec (l r : List α) (hl : l.Sorted (· < ·)) (hr : r.Sorted (· < ·)) :
    (set_union l r).Sorted (· < ·) ∧
      ∀ x : α, x ∈ set_union l r ↔ x ∈ l ∨ x ∈ r :=
  ⟨sorted_union_loop _ l r (le_refl _) hl hr,
   mem_union_loop _ l r (le_refl _)⟩

theorem set_difference_spec (l r : List α) (hl : l.Sorted (· < ·)) (hr : r.Sorted (· < ·)) :
    (set_difference l r).Sorted (· < ·) ∧
      ∀ x : α, x ∈ set_difference l r ↔ x ∈ l ∧ x ∉ r :=
  ⟨List.Pairwise.sublist (diff_loop_sublist _ l r) hl,
   mem_diff_loop _ l r (le_refl _) hl hr⟩

/-- A strictly ascending list has no duplicates. -/
theorem sorted_lt_nodup {l : List α} (h : l.Sorted (· < ·)) : l.Nodup :=
  List.Pairwise.imp (fun hab => ne_of_lt hab) h

/-- When both operands are nonempty, `or_operation` is plain `std::set_union`. -/
theorem or_operation_eq (A B : List α) (hA0 : A ≠ []) (hB0 : B ≠ []) :
    or_operation A B = set_union A B := by
  cases A with
  | nil => exact absurd rfl hA0
  | cons a as =>
    cases B with
    | nil => exact absurd rfl hB0
    | cons b bs => simp [or_operation]

/-- Helper for the lexer lemma: the flushed pending token contains no quote
byte when the accumulator does not. -/
theorem flush_no_quote {tok : List Nat} (htok : (34 : Nat) ∉ tok) :
    ∀ t ∈ (if tok = [] then ([] : List (List Nat)) else [tok]), (34 : Nat) ∉ t := by
  intro t ht
  by_cases h : tok = []
  · simp [h] at ht
  · rw [if_neg h] at ht
    have := List.mem_singleton.mp ht
    subst this; exact htok

/-- No token emitted by the lexer contains the quote byte 34: both quote
branches only toggle `in_quotes`, and operator emission produces the bytes
38, 124 or 33 only. -/
theorem parse_query_loop_no_quote :
    ∀ (n : Nat) (q : List Nat), q.length ≤ n → ∀ (inq : Bool) (tok : List Nat),
      (34 : Nat) ∉ tok → ∀ t ∈ parse_query_loop inq tok q, (34 : Nat) ∉ t := by
  intro n
  induction n with
  | zero =>
    intro q hq inq tok htok t ht
    have hq0 : q = [] := List.length_eq_zero.mp (by omega)
    subst hq0
    simp only [parse_query_loop] at ht
    exact flush_no_quote htok t ht
  | succ m ih =>
    intro q hq inq tok htok t ht
    cases q with
    | nil =>
      simp only [parse_query_loop] at ht
      exact flush_no_quote htok t ht
    | cons c cs =>
      cases cs with
      | nil =>
        simp only [parse_query_loop] at ht
        by_cases h34 : c = 34
        · rw [if_pos h34] at ht
          exact ih [] (by simp) (!inq) tok htok t ht
        · rw [if_neg h34] at ht
          by_cases hsep : (c = 32 ∨ c = 40 ∨ c = 41) ∧ inq = false
          · rw [if_pos hsep] at ht
            rcases List.mem_append.mp ht with ht1 | ht2
            · exact flush_no_quote htok t ht1
            · exact ih [] (by simp) inq [] (by simp) t ht2
          · rw [if_neg hsep] at ht
            by_cases hop : c = 38 ∨ c = 124 ∨ c = 33
            · rw [if_pos hop] at ht
              rcases List.mem_append.mp ht with ht1 | ht2
              · exact flush_no_quote htok t ht1
              · have := List.mem_singleton.mp ht2
                subst this
                intro hmem
                rw [List.mem_singleton] at hmem
                exact h34 hmem.symm
            · rw [if_neg hop] at ht
              refine ih [] (by simp) inq (tok ++ [c]) ?_ t ht
              intro hmem
              rcases List.mem_append.mp hmem with h' | h'
              · exact htok h'
              · rw [List.mem_singleton] at h'
                exact h34 h'.symm
      | cons c2 cs2 =>
        have hcs : (c2 :: cs2).length ≤ m := by simp only [List.length_cons] at hq ⊢; omega
        simp only [parse_query_loop] at ht
        by_cases h34 : c = 34
        · rw [if_pos h34] at ht
          exact ih (c2 :: cs2) hcs (!inq) tok htok t ht
        · rw [if_neg h34] at ht
          by_cases hsep : (c = 32 ∨ c = 40 ∨ c = 41) ∧ inq = false
          · rw [if_pos hsep] at ht
            rcases List.mem_append.mp ht with ht1 | ht2
            · exact flush_no_quote htok t ht1
            · exact ih (c2 :: cs2) hcs inq [] (by simp) t ht2
          · rw [if_neg hsep] at ht
            by_cases hop : c = 38 ∨ c = 124 ∨ c = 33
            · rw [if_pos hop] at ht
              rcases List.mem_append.mp ht with ht1 | ht2
              · exact flush_no_quote htok t ht1
              · by_cases hc2 : c2 = c
                · rw [if_pos hc2] at ht2
                  rcases List.mem_cons.mp ht2 with rfl | ht3
                  · intro hmem
                    rcases List.mem_cons.mp hmem with h' | h'
                    · exact h34 h'.symm
                    · rw [List.mem_singleton] at h'
                      exact h34 h'.symm
                  · exact ih cs2 (by simp only [List.length_cons] at hq; omega) inq []
                      (by simp) t ht3
                · rw [if_neg hc2] at ht2
                  rcases List.mem_cons.mp ht2 with rfl | ht3
                  · intro hmem
                    rw [List.mem_singleton] at hmem
                    exact h34 hmem.symm
                  · exact ih (c2 :: cs2) hcs inq [] (by simp) t ht3
            · rw [if_neg hop] at ht
              refine ih (c2 :: cs2) hcs inq (tok ++ [c]) ?_ t ht
              intro hmem
              rcases List.mem_append.mp hmem with h' | h'
              · exact htok h'
              · rw [List.mem_singleton] at h'
                exact h34 h'.symm

/-! ## Claim theorems -/

/-- Claim C1 (code bug): the Direct Index does not round-trip through the
codec.  `write_direct_index` serializes only `title_size ++ title ++
url_size ++ url`, omitting `doc_id` entirely, while `load_direct_index`
reads three length-prefixed fields per record; loading what was written for
three all-empty records yields only two records, not the original three. -/
theorem direct_write_omits_doc_id :
    write_direct_index [⟨bytes "d", bytes "t", bytes "u"⟩] =
      encU64 1 ++ bytes "t" ++ encU64 1 ++ bytes "u" ∧
    load_direct_index 0 (write_direct_index
      [⟨[], [], []⟩, ⟨[], [], []⟩, ⟨[], [], []⟩]) = [⟨[], [], []⟩, ⟨[], [], []⟩] ∧
    load_direct_index 0 (write_direct_index
      [⟨[], [], []⟩, ⟨[], [], []⟩, ⟨[], [], []⟩]) ≠
      [⟨[], [], []⟩, ⟨[], [], []⟩, ⟨[], [], []⟩] := by decide

/-- Claim C2 (code bug): the builder never canonicalizes postings lists.  A
document whose text repeats a token yields that `doc_id` twice in the
postings list of the term, which is therefore neither strictly ascending nor
duplicate-free; no sort/dedup pass exists in the build. -/
theorem build_postings_duplicates :
    build_inverted [⟨bytes "d1", [], [], bytes "cat cat"⟩] =
      [⟨bytes "cat", [bytes "d1", bytes "d1"]⟩] ∧
    ¬ List.Sorted (· < ·) [bytes "d1", bytes "d1"] ∧
    ¬ ([bytes "d1", bytes "d1"] : List (List Nat)).Nodup := by decide

/-- Claim C3 counterexample: `or_operation` is not set union on all sorted
duplicate-free inputs — with A = [[97]] (sorted, nodup) and B = [], the union
should contain [97] but `or_operation` returns the empty list because of its
empty-operand guard. -/
theorem or_operation_empty_counterexample :
    List.Sorted (· < ·) ([[97]] : List (List Nat)) ∧
    ([[97]] : List (List Nat)).Nodup ∧
    or_operation [[97]] ([] : List (List Nat)) = [] ∧
    ([97] : List Nat) ∈ ([[97]] : List (List Nat)) ∧
    ([97] : List Nat) ∉ or_operation [[97]] ([] : List (List Nat)) := by decide

/-- Claim C3 (amended): for all strictly ascending (hence duplicate-free)
lists A, B of doc ids, `and_operation` is exactly set intersection and
`not_operation` exactly set difference, both preserving strict ascent and
duplicate-freedom; `or_operation` is set union with the same preservation
whenever both operands are nonempty, but returns the empty list whenever
either operand is empty. -/
theorem set_ops_correct (A B : List (List Nat))
    (hA : A.Sorted (· < ·)) (hB : B.Sorted (· < ·)) :
    ((and_operation A B).Sorted (· < ·) ∧ (and_operation A B).Nodup ∧
      ∀ x, x ∈ and_operation A B ↔ x ∈ A ∧ x ∈ B) ∧
    ((not_operation A B).Sorted (· < ·) ∧ (not_operation A B).Nodup ∧
      ∀ x, x ∈ not_operation A B ↔ x ∈ A ∧ x ∉ B) ∧
    (A ≠ [] → B ≠ [] →
      (or_operation A B).Sorted (· < ·) ∧ (or_operation A B).Nodup ∧
      ∀ x, x ∈ or_operation A B ↔ x ∈ A ∨ x ∈ B) ∧
    ((A = [] ∨ B = []) → or_operation A B = []) := by
  refine ⟨?_, ?_, ?_, ?_⟩
  · rw [and_operation_eq]
    obtain ⟨hs, hm⟩ := set_intersection_spec A B hA hB
    exact ⟨hs, sorted_lt_nodup hs, hm⟩
  · rw [not_operation_eq]
    obtain ⟨hs, hm⟩ := set_difference_spec A B hA hB
    exact ⟨hs, sorted_lt_nodup hs, hm⟩
  · intro hA0 hB0
    rw [or_operation_eq A B hA0 hB0]
    obtain ⟨hs, hm⟩ := set_union_spec A B hA hB
    exact ⟨hs, sorted_lt_nodup hs, hm⟩
  · rintro (rfl | rfl)
    · simp [or_operation]
    · simp [or_operation]

/-- Witness for the C3 theorem at A = [[97]], B = [[97], [98]]. -/
theorem set_ops_correct_witness :
    (and_operation [[97]] [[97], [98]] : List (List Nat)).Sorted (· < ·) ∧
    (or_operation [[97]] [[97], [98]] : List (List Nat)).Sorted (· < ·) :=
  ⟨(set_ops_correct [[97]] [[97], [98]] (by decide) (by decide)).1.1,
   ((set_ops_correct [[97]] [[97], [98]] (by decide) (by decide)).2.2.1
      (by decide) (by decide)).1⟩

/-- Claim C4 counterexample: load failure is not fatal.  A missing file only
leaves the index empty (the loader has no error channel), a file truncated
inside the leading length prefix is silently ignored, and the searcher still
answers queries with exit status 0. -/
theorem load_not_fatal_counterexample :
    load_direct_file 0 none = [] ∧
    load_direct_index 0 [0, 0, 0, 0] = [] ∧
    load_inverted_index 0 [0, 0, 0, 0] = [] ∧
    searcher_main 0 (some [bytes "cat"]) none none = (0, [[]]) := by decide

/-- Claim C4 (amended): a missing or unreadable index file makes the loader
print a message and return an empty table with no error signalled; decoding
stops silently whenever fewer than 8 bytes remain at a record boundary; a file
truncated inside a record pushes a final garbage-padded partial record instead
of failing — shown for both loaders and for every indeterminate value `junk`:
truncation inside the `url_size` prefix (after zero or more title bytes),
truncation inside the title itself (which is then zero-padded to `title_size`),
and a title followed by 1-7 leftover bytes; and the searcher proceeds to
answer every query with exit status 0 regardless of what loading produced. -/
theorem load_error_behavior :
    (∀ junk : Nat, load_direct_file junk none = [] ∧ load_inverted_file junk none = []) ∧
    (∀ (junk : Nat) (bs : List Nat), bs.length < 8 →
      load_direct_index junk bs = [] ∧ load_inverted_index junk bs = []) ∧
    (∀ junk : Nat, load_direct_index junk (encU64 0) =
      [⟨List.replicate junk 0, [], List.replicate junk 0⟩]) ∧
    (∀ junk : Nat, load_direct_index junk (encU64 5 ++ [97]) =
      [⟨List.replicate junk 0, [97, 0, 0, 0, 0], List.replicate junk 0⟩]) ∧
    (∀ junk : Nat, load_direct_index junk (encU64 1 ++ [97, 1, 2, 3]) =
      [⟨List.replicate junk 0, [97], List.replicate junk 0⟩]) ∧
    (∀ junk : Nat, load_inverted_index junk (encU64 1 ++ [97]) =
      [⟨[97], List.replicate junk (List.replicate junk 0)⟩]) ∧
    (∀ (junk : Nat) (queries : List (List Nat)) (direct_bytes inverted_bytes : Option (List Nat)),
      (searcher_main junk (some queries) direct_bytes inverted_bytes).1 = 0) := by
  refine ⟨fun junk => ⟨rfl, rfl⟩, ?_, ?_, ?_, ?_, ?_, fun junk queries db ib => rfl⟩
  · intro junk bs h
    constructor
    · rw [load_direct_index]
      simp only [load_direct_loop]
      rw [if_pos h]
    · rw [load_inverted_index]
      simp only [load_inverted_loop]
      rw [if_pos h]
  · intro junk
    rw [show encU64 0 = [0, 0, 0, 0, 0, 0, 0, 0] from rfl]
    simp [load_direct_index, load_direct_loop, decU64]
  · intro junk
    rw [show encU64 5 ++ [97] = [5, 0, 0, 0, 0, 0, 0, 0, 97] from rfl]
    simp [load_direct_index, load_direct_loop, decU64,
      show List.replicate 4 (0 : Nat) = [0, 0, 0, 0] from rfl]
  · intro junk
    rw [show encU64 1 ++ [97, 1, 2, 3] = [1, 0, 0, 0, 0, 0, 0, 0, 97, 1, 2, 3] from rfl]
    simp [load_direct_index, load_direct_loop, decU64]
  · intro junk
    rw [show encU64 1 ++ [97] = [1, 0, 0, 0, 0, 0, 0, 0, 97] from rfl]
    simp [load_inverted_index, load_inverted_loop, decU64]

/-- Witness for the C4 theorem: the silent-stop conjunct at a 4-byte file. -/
theorem load_error_behavior_witness :
    load_direct_index 1 [0, 0, 0, 0] = [] ∧ load_inverted_index 1 [0, 0, 0, 0] = [] :=
  load_error_behavior.2.1 1 [0, 0, 0, 0] (by decide)

/-- Claim C5 counterexample: a quoted operand containing an operator byte is
not one token — the lexer splits the quoted text at the `&` and emits an
operator token from inside the quotes. -/
theorem quoted_operator_counterexample :
    parse_query (bytes "\"a&b\"") = [bytes "a", bytes "&", bytes "b"] ∧
    parse_query (bytes "\"a&b\"") ≠ [bytes "a&b"] := by decide

/-- Claim C5 (amended): between quotes, spaces and parentheses lose their
separator role and are accumulated into the single pending operand token, but
the bytes 38 (`&`), 124 (`|`) and 33 (`!`) keep acting as operators even
inside quotes: the pending token is flushed and operator tokens are emitted. -/
theorem quote_escape_behavior :
    (∀ (tok cs : List Nat) (c : Nat), c = 32 ∨ c = 40 ∨ c = 41 →
      parse_query_loop true tok (c :: cs) = parse_query_loop true (tok ++ [c]) cs) ∧
    parse_query (bytes "\"a (b)\"") = [bytes "a (b)"] ∧
    parse_query (bytes "\"a&b\"") = [bytes "a", bytes "&", bytes "b"] ∧
    parse_query (bytes "\"a&&b\"") = [bytes "a", bytes "&&", bytes "b"] := by
  refine ⟨?_, by decide, by decide, by decide⟩
  rintro tok cs c (rfl | rfl | rfl) <;> cases cs <;> simp [parse_query_loop]

/-- Witness for the C5 theorem at the space byte. -/
theorem quote_escape_behavior_witness :
    parse_query_loop true [] [32] = parse_query_loop true ([] ++ [32]) [] :=
  quote_escape_behavior.1 [] [] 32 (Or.inl rfl)

/-- Claim C6 counterexample: with both output files unwritable the build
still exits 0 (success) — it does not abort with a non-zero status. -/
theorem write_failure_exit_zero_counterexample :
    indexer_main true [⟨bytes "d1", bytes "t", bytes "u", bytes "cat"⟩] false false =
      (0, none, none) := by decide

/-- Claim C6 (amended): when an output file cannot be opened the writer
prints an error and returns, so nothing is persisted for that index — but the
build continues and exits 0; only a missing corpus at startup is fatal
(exit 1). -/
theorem write_failure_behavior :
    (∀ direct_index : List DirectIndex, write_direct_file false direct_index = none) ∧
    (∀ inverted_index : List InvertedIndex, write_inverted_file false inverted_index = none) ∧
    (∀ corpus : List CorpusDoc, indexer_main true corpus false false = (0, none, none)) ∧
    (∀ (corpus : List CorpusDoc) (w1 w2 : Bool),
      indexer_main false corpus w1 w2 = (1, none, none)) := by
  refine ⟨fun d => rfl, fun i => rfl, fun c => ?_, fun c w1 w2 => rfl⟩
  simp [indexer_main, write_direct_file, write_inverted_file]

/-- Claim C7: the `!` token is a binary difference: with at least two stack
items it pops the top as `right`, the next as `left`, and pushes
`not_operation left right`; over the index cat:[d1], dog:[d1,d2], bird:[d2]
the query "dog cat !" evaluates to [d2]. -/
theorem not_operator_binary_diff :
    (∀ (inverted_index : List InvertedIndex) (right left : List (List Nat))
        (rest : List (List (List Nat))),
      eval_token inverted_index (right :: left :: rest) opNotTok =
        not_operation left right :: rest) ∧
    boolean_search (bytes "dog cat !") exampleIndex = [bytes "d2"] := by
  refine ⟨?_, by decide⟩
  intro idx right left rest
  simp [eval_token, opAndTok, opOrTok, opNotTok]

/-- Claim C8: an operator token that arrives with fewer than two lists on the
stack is a no-op — the stack is returned exactly unchanged. -/
theorem operator_underflow_noop (inverted_index : List InvertedIndex)
    (stack : List (List (List Nat))) (token : List Nat)
    (hop : token = opAndTok ∨ token = opOrTok ∨ token = opNotTok)
    (hlen : stack.length < 2) :
    eval_token inverted_index stack token = stack := by
  unfold eval_token
  rw [if_pos hop]
  cases stack with
  | nil => rfl
  | cons s1 t =>
    cases t with
    | nil => rfl
    | cons s2 r => simp only [List.length_cons] at hlen; omega

/-- Witness for the C8 theorem: `!` on a one-element stack. -/
theorem operator_underflow_noop_witness :
    eval_token exampleIndex [[bytes "d1"]] opNotTok = [[bytes "d1"]] :=
  operator_underflow_noop exampleIndex [[bytes "d1"]] opNotTok
    (Or.inr (Or.inr rfl)) (by decide)

/-- Claim C9: an operand token absent from the inverted index pushes nothing
(the stack is unchanged), and a query consisting solely of one unknown term
yields the empty result. -/
theorem unknown_operand_no_push :
    (∀ (inverted_index : List InvertedIndex) (stack : List (List (List Nat)))
        (token : List Nat),
      ¬(token = opAndTok ∨ token = opOrTok ∨ token = opNotTok) →
      lookup_term inverted_index token = none →
      eval_token inverted_index stack token = stack) ∧
    boolean_search (bytes "zzz") exampleIndex = [] := by
  refine ⟨?_, by decide⟩
  intro idx stack token hop hlook
  unfold eval_token
  rw [if_neg hop, hlook]

/-- Witness for the C9 theorem: the unknown term zzz on the empty stack. -/
theorem unknown_operand_no_push_witness :
    eval_token exampleIndex [] (bytes "zzz") = [] :=
  unknown_operand_no_push.1 exampleIndex [] (bytes "zzz") (by decide) (by decide)

/-- Claim C10: the quote byte never appears in any token emitted by
`parse_query`, and an unterminated quote is tolerated: the bytes accumulated
after the lone opening quote are still emitted as a final operand token. -/
theorem lexer_quote_edge_cases :
    (∀ (query : List Nat), ∀ t ∈ parse_query query, (34 : Nat) ∉ t) ∧
    parse_query (bytes "\"abc") = [bytes "abc"] := by
  constructor
  · intro query t ht
    exact parse_query_loop_no_quote query.length query (le_refl _) false [] (by simp) t ht
  · decide

/-- Witness for the C10 theorem at the unterminated-quote query. -/
theorem lexer_quote_edge_cases_witness :
    bytes "abc" ∈ parse_query (bytes "\"abc") ∧ (34 : Nat) ∉ bytes "abc" :=
  ⟨by decide, lexer_quote_edge_cases.1 (bytes "\"abc") (bytes "abc") (by decide)⟩

end InfoSearch
